import Mathlib

/-!
Verification of the Qt Firebase REST client (`firebase.cpp` / `firebase.h`).

The client is shallowly embedded: `QString` and `QByteArray` become
`List Char`, Qt's partial index operator becomes an `Option`-valued access
(out-of-bounds access is `none`), the signal emissions of a slot become the
list of signals the slot would emit, and the network requests a member
function issues become an explicit list of transport actions.  JSON values
and Qt's JSON parser / compact serializer (`QJsonDocument::fromJson`,
`QJsonDocument::toJson(QJsonDocument::Compact)`) are modelled by an
executable JSON value grammar.
-/

/-! ## Qt string and byte-array primitives -/

/-- Whitespace recognised by `QString::trimmed` / `QByteArray::trimmed`
(ASCII space, tab, newline, vertical tab, form feed, carriage return). -/
def isQtSpace (c : Char) : Bool :=
  c = ' ' || c = '\t' || c = '\n' || c = Char.ofNat 11 || c = Char.ofNat 12 || c = '\r'

/-- Model of `QString::trimmed` / `QByteArray::trimmed`: strip leading and
trailing whitespace. -/
def qtrimmed (s : List Char) : List Char :=
  ((s.dropWhile isQtSpace).reverse.dropWhile isQtSpace).reverse

/-- Model of Qt's `operator[]` on a constant string: the character at signed
index `i`, or `none` when the index is out of bounds (in Qt this access is
out of contract: `Q_ASSERT` in debug builds, an out-of-bounds read in
release builds). -/
def qCharAt (s : List Char) (i : Int) : Option Char :=
  if h : 0 ≤ i ∧ i.toNat < s.length then some (s.get ⟨i.toNat, h.2⟩) else none

/-- Model of `QByteArray::right(len)` / `QString::right(len)`: the last
`len` characters; the whole string when `len` is at least its size and
nothing when `len` is negative. -/
def qRight (s : List Char) (len : Int) : List Char :=
  if (s.length : Int) ≤ len then s
  else if len < 0 then []
  else s.drop (s.length - len.toNat)

/-- Model of `QByteArray::indexOf(char)`: position of the first occurrence,
`-1` when absent. -/
def qIndexOf : List Char → Char → Int
  | [], _ => -1
  | x :: xs, c =>
    if x = c then 0
    else
      if qIndexOf xs c < 0 then -1 else qIndexOf xs c + 1

/-- Model of `QIODevice::readLine` on a buffered reply: the first line of
the buffer up to and including the first newline (the whole buffer when it
holds no newline), paired with the bytes that remain unread. -/
def readLineSplit : List Char → List Char × List Char
  | [] => ([], [])
  | c :: cs =>
    if c = '\n' then ([c], cs)
    else ((c :: (readLineSplit cs).1), (readLineSplit cs).2)

/-! ## JSON values (model of `QJsonValue` / `QJsonObject` / `QJsonArray`) -/

mutual

inductive Json where
  | jnull : Json
  | jbool (b : Bool) : Json
  | jnum (lexeme : List Char) : Json
  | jstr (s : List Char) : Json
  | jarr (items : JsonList) : Json
  | jobj (fields : JsonFields) : Json

inductive JsonList where
  | nil : JsonList
  | cons (hd : Json) (tl : JsonList) : JsonList

inductive JsonFields where
  | nil : JsonFields
  | cons (key : List Char) (val : Json) (tl : JsonFields) : JsonFields

end

/-- The character `{` (written by code so that brace characters do not occur
in string literals). -/
def lbrace : Char := Char.ofNat 123

/-- The character `}`. -/
def rbrace : Char := Char.ofNat 125

/-- JSON-grammar whitespace accepted between tokens by the parser. -/
def isJsonWs (c : Char) : Bool :=
  c = ' ' || c = '\t' || c = '\n' || c = '\r'

/-- Skip JSON whitespace. -/
def skipWs : List Char → List Char
  | [] => []
  | c :: cs => if isJsonWs c then skipWs cs else c :: cs

/-- JSON string escapes recognised by the parser model. -/
def escChar (c : Char) : Option Char :=
  if c = '"' then some '"'
  else if c = '\\' then some '\\'
  else if c = '/' then some '/'
  else if c = 'n' then some '\n'
  else if c = 't' then some '\t'
  else if c = 'r' then some '\r'
  else if c = 'b' then some (Char.ofNat 8)
  else if c = 'f' then some (Char.ofNat 12)
  else none

/-- Parse the body of a JSON string (after the opening quote), returning the
decoded content and the input following the closing quote. -/
def pStr : List Char → Option (List Char × List Char)
  | [] => none
  | c :: cs =>
    if c = '"' then some ([], cs)
    else if c = '\\' then
      match cs with
      | [] => none
      | e :: cs2 =>
        match escChar e with
        | none => none
        | some d =>
          match pStr cs2 with
          | none => none
          | some (t, r) => some (d :: t, r)
    else
      match pStr cs with
      | none => none
      | some (t, r) => some (c :: t, r)

/-- Take a maximal run of decimal digits. -/
def takeDigits : List Char → List Char × List Char
  | [] => ([], [])
  | c :: cs =>
    if c.isDigit then ((c :: (takeDigits cs).1), (takeDigits cs).2)
    else ([], c :: cs)

/-- Parse a JSON number (optional minus sign, digits, optional fraction),
keeping its lexeme. -/
def pNum (s : List Char) : Option (List Char × List Char) :=
  match s with
  | '-' :: r =>
    match takeDigits r with
    | ([], _) => none
    | (intPart, s2) =>
      match s2 with
      | '.' :: r2 =>
        match takeDigits r2 with
        | ([], _) => some ('-' :: intPart, s2)
        | (frac, r3) => some (('-' :: intPart) ++ '.' :: frac, r3)
      | _ => some ('-' :: intPart, s2)
  | _ =>
    match takeDigits s with
    | ([], _) => none
    | (intPart, s2) =>
      match s2 with
      | '.' :: r2 =>
        match takeDigits r2 with
        | ([], _) => some (intPart, s2)
        | (frac, r3) => some (intPart ++ '.' :: frac, r3)
      | _ => some (intPart, s2)

mutual

def pVal : Nat → List Char → Option (Json × List Char)
  | 0, _ => none
  | fuel + 1, s =>
    match skipWs s with
    | [] => none
    | c :: cs =>
      if c = lbrace then
        match skipWs cs with
        | [] => none
        | d :: r => if d = rbrace then some (.jobj .nil, r) else pFields fuel (d :: r)
      else if c = '[' then
        match skipWs cs with
        | [] => none
        | d :: r => if d = ']' then some (.jarr .nil, r) else pItems fuel (d :: r)
      else if c = '"' then
        match pStr cs with
        | some (str, r) => some (.jstr str, r)
        | none => none
      else if c = 't' then
        match cs with
        | 'r' :: 'u' :: 'e' :: r => some (.jbool true, r)
        | _ => none
      else if c = 'f' then
        match cs with
        | 'a' :: 'l' :: 's' :: 'e' :: r => some (.jbool false, r)
        | _ => none
      else if c = 'n' then
        match cs with
        | 'u' :: 'l' :: 'l' :: r => some (.jnull, r)
        | _ => none
      else
        match pNum (c :: cs) with
        | some (lex, r) => some (.jnum lex, r)
        | none => none

def pFields : Nat → List Char → Option (Json × List Char)
  | 0, _ => none
  | fuel + 1, s =>
    match skipWs s with
    | [] => none
    | q :: cs =>
      if q = '"' then
        match pStr cs with
        | some (key, r) =>
          (match skipWs r with
           | ':' :: r2 =>
             (match pVal fuel r2 with
              | some (v, r3) =>
                (match skipWs r3 with
                 | [] => none
                 | t :: r4 =>
                   if t = ',' then
                     match pFields fuel r4 with
                     | some (.jobj rest, r5) => some (.jobj (.cons key v rest), r5)
                     | _ => none
                   else if t = rbrace then some (.jobj (.cons key v .nil), r4)
                   else none)
              | none => none)
           | _ => none)
        | none => none
      else none

def pItems : Nat → List Char → Option (Json × List Char)
  | 0, _ => none
  | fuel + 1, s =>
    match pVal fuel s with
    | some (v, r) =>
      (match skipWs r with
       | ',' :: r2 =>
         (match pItems fuel r2 with
          | some (.jarr rest, r3) => some (.jarr (.cons v rest), r3)
          | _ => none)
       | ']' :: r2 => some (.jarr (.cons v .nil), r2)
       | _ => none)
    | none => none

end

/-- Model of `QJsonDocument::fromJson`: parse a complete JSON value; `none`
on a parse error or trailing garbage (the empty input parses to nothing). -/
def jsonParse (s : List Char) : Option Json :=
  match pVal (s.length + 1) s with
  | some (v, rest) => if skipWs rest = [] then some v else none
  | none => none

/-- `QJsonDocument::isObject` on a parse result. -/
def isObjOption : Option Json → Bool
  | some (.jobj _) => true
  | _ => false

/-- Escape a character for JSON string output. -/
def serEscape : List Char → List Char
  | [] => []
  | c :: cs =>
    (if c = '"' then ['\\', '"']
     else if c = '\\' then ['\\', '\\']
     else if c = '\n' then ['\\', 'n']
     else if c = '\t' then ['\\', 't']
     else if c = '\r' then ['\\', 'r']
     else [c]) ++ serEscape cs

mutual

def serJson : Json → List Char
  | .jnull => ['n', 'u', 'l', 'l']
  | .jbool true => ['t', 'r', 'u', 'e']
  | .jbool false => ['f', 'a', 'l', 's', 'e']
  | .jnum lex => lex
  | .jstr s => '"' :: (serEscape s ++ ['"'])
  | .jarr items => '[' :: (serItems items ++ [']'])
  | .jobj fields => lbrace :: (serFields fields ++ [rbrace])

def serItems : JsonList → List Char
  | .nil => []
  | .cons v .nil => serJson v
  | .cons v (.cons w tl) => serJson v ++ ',' :: serItems (.cons w tl)

def serFields : JsonFields → List Char
  | .nil => []
  | .cons k v .nil => '"' :: (serEscape k ++ '"' :: ':' :: serJson v)
  | .cons k v (.cons k2 v2 tl) =>
    ('"' :: (serEscape k ++ '"' :: ':' :: serJson v)) ++
      ',' :: serFields (.cons k2 v2 tl)

end

/-- Model of `QJsonDocument::toJson(QJsonDocument::Compact)`: the compact
textual serialization of a JSON document. -/
def toJsonCompact (doc : Json) : List Char :=
  serJson doc

/-! ## The Firebase client (embedding of `firebase.cpp`) -/

/-- The signals the `Firebase` class can emit from its event-stream slots. -/
inductive FbSignal where
  | eventKeepAlive : FbSignal
  | eventPut (changedData : JsonFields) : FbSignal

/-- The transport-level actions a slot can perform. -/
inductive QtAction where
  | deleteLater : QtAction
  | httpGet (url : List Char) (rawHeaders : List (List Char × List Char)) : QtAction

/-- The stored member fields of a `Firebase` object after construction. -/
structure FirebaseState where
  mFirebaseFunctionHost : List Char
  mFirebaseToken : List Char
  mHost : List Char

/-- `Firebase::forceEndChar` (`firebase.cpp:155-161`): reads
`string[string.length()-1]` and appends `endCh` when that last character
differs from it.  The index access is partial: on the empty string it is
`string[-1]`, an out-of-bounds access, modelled as `none`. -/
def forceEndChar (string : List Char) (endCh : Char) : Option (List Char) :=
  match qCharAt string ((string.length : Int) - 1) with
  | none => none
  | some ch => if ch ≠ endCh then some (string ++ [endCh]) else some string

/-- `Firebase::forceStartChar` (`firebase.cpp:163-169`): prepends `startCh`
when the string is non-empty and does not already start with it. -/
def forceStartChar (string : List Char) (startCh : Char) : List Char :=
  match string with
  | [] => []
  | c :: cs => if c ≠ startCh then startCh :: c :: cs else c :: cs

/-- The `Firebase` constructor (`firebase.cpp:3-12`): stores the function
host and an empty token, and sets
`mHost = forceEndChar(hostName.trimmed(), '/') + dbPath.trimmed()`.
Returns `none` when the host normalization performs its out-of-bounds
access (empty trimmed host). -/
def firebaseConstruct (hostName functionHost dbPath : List Char) :
    Option FirebaseState :=
  match forceEndChar (qtrimmed hostName) '/' with
  | none => none
  | some h => some ⟨functionHost, [], h ++ qtrimmed dbPath⟩

/-- The constant `dotJsonLength = 5` of `Firebase::buildPath`. -/
def dotJsonLength : Int := 5

/-- The literal `".json"`. -/
def dotJson : List Char := ['.', 'j', 's', 'o', 'n']

/-- `Firebase::buildPath` (`firebase.cpp:140-153`): appends `".json"` when
the destination has length at most five or its last five characters are not
`".json"`, then appends the `?`-normalized query string when non-empty. -/
def buildPath (mHost queryString : List Char) : List Char :=
  let destination :=
    if (mHost.length : Int) ≤ dotJsonLength ∨ qRight mHost dotJsonLength ≠ dotJson
    then mHost ++ dotJson
    else mHost
  if 0 < queryString.length then destination ++ forceStartChar queryString '?'
  else destination

/-- `Firebase::trimValue` (`firebase.cpp:171-179`): when the first `':'`
occurs at a strictly positive index, take the `size - index - 1` last
characters (everything after the colon), otherwise keep the empty array;
then trim whitespace. -/
def trimValue (line : List Char) : List Char :=
  qtrimmed
    (if 0 < qIndexOf line ':'
     then qRight line ((line.length : Int) - qIndexOf line ':' - 1)
     else [])

/-- `Firebase::parseKeepAlive` (`firebase.cpp:119-124`): ignores the data
and emits `eventKeepAlive`. -/
def parseKeepAlive (_data : List Char) : List FbSignal :=
  [.eventKeepAlive]

/-- `Firebase::parsePut` (`firebase.cpp:126-138`): reduce the data with
`trimValue`, parse it as JSON; when the result is an object emit
`eventPut(object)`, otherwise only warn and emit nothing. -/
def parsePut (data : List Char) : List FbSignal :=
  match jsonParse (trimValue data) with
  | some (.jobj fields) => [.eventPut fields]
  | _ => []

/-- The header line `"event: keep-alive\n"`. -/
def kaHeader : List Char := ("event: keep-alive\n").toList

/-- The header line `"event: put\n"`. -/
def putHeader : List Char := ("event: put\n").toList

/-- `Firebase::eventReadyRead` (`firebase.cpp:85-108`): read one line; when
it is empty return at once (consuming nothing further), otherwise read all
remaining bytes as the data payload and dispatch on the header line,
warning (and emitting nothing) on an unknown header.  The result is the
emitted signals paired with the bytes left unread in the reply buffer. -/
def eventReadyRead (buffer : List Char) : List FbSignal × List Char :=
  if (readLineSplit buffer).1 = [] then ([], (readLineSplit buffer).2)
  else if (readLineSplit buffer).1 = kaHeader then
    (parseKeepAlive ((readLineSplit buffer).2), [])
  else if (readLineSplit buffer).1 = putHeader then
    (parsePut ((readLineSplit buffer).2), [])
  else ([], [])

/-- `Firebase::open` (`firebase.cpp:110-117`): issue a GET with the raw
header `Accept: text/event-stream` against the given URL (and connect the
stream slots to the reply). -/
def openEventStream (url : List Char) : QtAction :=
  .httpGet url [(("Accept").toList, ("text/event-stream").toList)]

/-- `Firebase::eventFinished` (`firebase.cpp:69-83`): when the reply
carries a non-empty redirection target, release the reply and re-open the
stream against it; otherwise only release the reply.  No signal is emitted
in either case.  The result is the transport actions paired with the
emitted signals. -/
def eventFinished (redirectUrl : List Char) : List QtAction × List FbSignal :=
  if redirectUrl ≠ [] then ([.deleteLater, openEventStream redirectUrl], [])
  else ([.deleteLater], [])

/-- The request `Firebase::setValue` sends. -/
structure CustomRequest where
  url : List Char
  contentTypeHeader : List Char
  verb : List Char
  body : List Char

/-- The default of `setValue`'s `verb` parameter in `firebase.h`. -/
def setValueDefaultVerb : List Char := ("PATCH").toList

/-- `Firebase::setValue` (`firebase.cpp:14-32`): sends a custom request
with the given verb against `buildPath(queryString)`, content type
`application/x-www-form-urlencoded`, and the compact JSON serialization of
`jsonDoc` as the body. -/
def setValue (mHost : List Char) (jsonDoc : Json) (verb queryString : List Char) :
    CustomRequest :=
  { url := buildPath mHost queryString
    contentTypeHeader := ("application/x-www-form-urlencoded").toList
    verb := verb
    body := toJsonCompact jsonDoc }

/-- Follows the spec words for claim C1 ("the data payload is reduced by
locating the first `:` character in it and taking everything after it, then
trimming surrounding whitespace"): unlike `trimValue`, the extraction is
performed whenever a colon exists, also at index `0`. -/
def specClaimedReduce (line : List Char) : List Char :=
  qtrimmed
    (if 0 ≤ qIndexOf line ':'
     then qRight line ((line.length : Int) - qIndexOf line ':' - 1)
     else [])

/-! ## Helper lemmas -/

/-- Qt's `s[s.length()-1]` succeeds on a non-empty string and returns its
last character. -/
theorem qCharAt_concat_last (L : List Char) (b : Char) :
    qCharAt (L ++ [b]) (L.length : Int) = some b := by
  unfold qCharAt
  have h : 0 ≤ (L.length : Int) ∧ ((L.length : Int)).toNat < (L ++ [b]).length := by
    constructor
    · exact Int.natCast_nonneg _
    · simp
  rw [dif_pos h]
  simp [List.get_eq_getElem]

/-- `forceEndChar` on a non-empty string, decomposed at its last character. -/
theorem forceEndChar_concat (L : List Char) (b c : Char) :
    forceEndChar (L ++ [b]) c = some (if b = c then L ++ [b] else (L ++ [b]) ++ [c]) := by
  unfold forceEndChar
  have h1 : (((L ++ [b]).length : Int) - 1) = (L.length : Int) := by simp
  rw [h1, qCharAt_concat_last]
  by_cases hb : b = c
  · simp [hb]
  · simp [hb]

/-- `forceEndChar` expressed through `getLast?`. -/
theorem forceEndChar_getLast (s : List Char) (c : Char) (h : s ≠ []) :
    forceEndChar s c = some (if s.getLast? = some c then s else s ++ [c]) := by
  rcases s.eq_nil_or_concat' with rfl | ⟨L, b, rfl⟩
  · exact absurd rfl h
  · rw [forceEndChar_concat, List.getLast?_concat]
    by_cases hb : b = c
    · simp [hb]
    · simp [hb]

/-- A successful `forceEndChar s c` always contains the character `c`. -/
theorem forceEndChar_mem (s r : List Char) (c : Char) (h : forceEndChar s c = some r) :
    c ∈ r := by
  rcases s.eq_nil_or_concat' with rfl | ⟨L, b, rfl⟩
  · have h0 : forceEndChar ([] : List Char) c = none := rfl
    rw [h0] at h
    simp at h
  · rw [forceEndChar_concat] at h
    injection h with h
    subst h
    by_cases hb : b = c
    · rw [if_pos hb]
      subst hb
      simp
    · rw [if_neg hb]
      simp

/-- The `?`-normalized query part that `buildPath` appends. -/
def normalizedQuery (queryString : List Char) : List Char :=
  if 0 < queryString.length then forceStartChar queryString '?' else []

/-- `buildPath` split into its `.json`-suffix decision and its query part. -/
theorem buildPath_eq (mHost queryString : List Char) :
    buildPath mHost queryString =
      (if (mHost.length : Int) ≤ dotJsonLength ∨ qRight mHost dotJsonLength ≠ dotJson
       then mHost ++ dotJson
       else mHost) ++ normalizedQuery queryString := by
  simp only [buildPath, normalizedQuery]
  by_cases hq : 0 < queryString.length
  · simp [hq]
  · simp [hq]

/-! ## Claim theorems -/

/-- C1, counterexample to the claim as stated: for the `put` data payload
`":{"a":1}\n"` (first colon at index `0`), the reduction the claim
describes — everything after the first `:`, trimmed — yields `{"a":1}`,
which parses as a JSON object, yet the stream parser emits zero Put
notifications for that event. -/
theorem putReduction_colonZero_cex :
    specClaimedReduce ((":\x7b\"a\":1\x7d\n").toList) = (("\x7b\"a\":1\x7d").toList) ∧
      isObjOption (jsonParse (specClaimedReduce ((":\x7b\"a\":1\x7d\n").toList))) = true ∧
      eventReadyRead (putHeader ++ (":\x7b\"a\":1\x7d\n").toList) = ([], []) :=
  ⟨rfl, rfl, rfl⟩

/-- C1 (amended): for every stream event whose header line is exactly
`event: put\n`, the data payload is reduced by `trimValue` (everything
after the first `:` when that colon sits at a strictly positive index, the
empty payload otherwise, then trimmed); whenever the result parses as a
JSON object, exactly one `eventPut` carrying that object is emitted, and in
particular the data line `data: {"path":"/","data":{"a":1}}` emits one Put
with the object `{"path":"/","data":{"a":1}}`. -/
theorem parsePut_reduction :
    (∀ data : List Char, ∀ fields : JsonFields,
        jsonParse (trimValue data) = some (Json.jobj fields) →
          eventReadyRead (putHeader ++ data) = ([FbSignal.eventPut fields], [])) ∧
      eventReadyRead ((("event: put\ndata: \x7b\"path\":\"/\",\"data\":\x7b\"a\":1\x7d\x7d\n").toList)) =
        ([FbSignal.eventPut (JsonFields.cons (("path").toList) (Json.jstr (("/").toList))
            (JsonFields.cons (("data").toList)
              (Json.jobj (JsonFields.cons (("a").toList) (Json.jnum (("1").toList)) JsonFields.nil))
              JsonFields.nil))], []) := by
  constructor
  · intro data fields hp
    have h1 : eventReadyRead (putHeader ++ data) = (parsePut data, []) := rfl
    rw [h1]
    unfold parsePut
    rw [hp]
  · rfl

/-- Witness for the amended C1 at a concrete payload. -/
theorem parsePut_reduction_witness :
    eventReadyRead (putHeader ++ (("data: \x7b\"b\":2\x7d\n").toList)) =
      ([FbSignal.eventPut (JsonFields.cons (("b").toList) (Json.jnum (("2").toList))
          JsonFields.nil)], []) :=
  parsePut_reduction.1 _ _ rfl

/-- C3: a chunk whose first line is exactly `event: keep-alive\n` — in
particular the full chunk `event: keep-alive\n\n` — emits exactly one
KeepAlive and zero Put notifications, and the data payload after the header
line is ignored. -/
theorem keepAlive_framing :
    (∀ rest : List Char, eventReadyRead (kaHeader ++ rest) = ([FbSignal.eventKeepAlive], [])) ∧
      eventReadyRead (("event: keep-alive\n\n").toList) = ([FbSignal.eventKeepAlive], []) :=
  ⟨fun _ => rfl, rfl⟩

/-- C4: a stream event whose non-empty header line matches neither
`event: keep-alive\n` nor `event: put\n`, or a `put` event whose payload
does not parse as a JSON object, is dropped: zero signals are emitted and
no error is surfaced (the diagnostic log is the only effect). -/
theorem malformed_event_dropped :
    (∀ buffer line rest : List Char,
        readLineSplit buffer = (line, rest) → line ≠ [] → line ≠ kaHeader →
          line ≠ putHeader → eventReadyRead buffer = ([], [])) ∧
      (∀ data : List Char, isObjOption (jsonParse (trimValue data)) = false →
          eventReadyRead (putHeader ++ data) = ([], [])) := by
  constructor
  · intro buffer line rest hsplit h1 h2 h3
    unfold eventReadyRead
    rw [hsplit]
    rw [if_neg h1, if_neg h2, if_neg h3]
  · intro data hobj
    have h1 : eventReadyRead (putHeader ++ data) = (parsePut data, []) := rfl
    rw [h1]
    unfold parsePut
    rcases hj : jsonParse (trimValue data) with _ | v
    · rfl
    · rcases v with _ | b | lex | s | items | fields
      · rfl
      · rfl
      · rfl
      · rfl
      · rfl
      · rw [hj] at hobj
        simp [isObjOption] at hobj

/-- Witness for C4: the unknown header `event: mystery\n` and the
unparseable payload `data: not-json` both emit nothing. -/
theorem malformed_event_dropped_witness :
    eventReadyRead (("event: mystery\ndata: x\n").toList) = ([], []) ∧
      eventReadyRead (putHeader ++ (("data: not-json\n").toList)) = ([], []) :=
  ⟨malformed_event_dropped.1 (("event: mystery\ndata: x\n").toList)
      (("event: mystery\n").toList) (("data: x\n").toList) rfl (by decide) (by decide)
      (by decide),
    malformed_event_dropped.2 (("data: not-json\n").toList) rfl⟩

/-- C5: on stream completion with a non-empty redirect target the client
releases the reply and opens a new streaming GET with the raw header
`Accept: text/event-stream` against that target; with no redirect target it
only releases the reply; in both cases it emits no signal (there is no
closed/end notification). -/
theorem eventFinished_redirect :
    ∀ redirectUrl : List Char,
      (redirectUrl ≠ [] →
          eventFinished redirectUrl =
            ([QtAction.deleteLater, openEventStream redirectUrl], [])) ∧
        (redirectUrl = [] → eventFinished redirectUrl = ([QtAction.deleteLater], [])) ∧
        (eventFinished redirectUrl).2 = [] ∧
        openEventStream redirectUrl =
          QtAction.httpGet redirectUrl [(("Accept").toList, ("text/event-stream").toList)] := by
  intro redirectUrl
  refine ⟨fun h => ?_, fun h => ?_, ?_, rfl⟩
  · unfold eventFinished
    rw [if_pos h]
  · subst h
    rfl
  · unfold eventFinished
    by_cases h : redirectUrl = []
    · rw [if_neg (fun hk => hk h)]
    · rw [if_pos h]

/-- Witness for C5 with a concrete redirect target and with none. -/
theorem eventFinished_redirect_witness :
    eventFinished (("http://r.example/x.json").toList) =
      ([QtAction.deleteLater, openEventStream (("http://r.example/x.json").toList)], []) ∧
      eventFinished ([]) = ([QtAction.deleteLater], []) :=
  ⟨(eventFinished_redirect _).1 (by decide), (eventFinished_redirect ([])).2.1 rfl⟩

/-- C6: for every host whose trimmed form is non-empty, construction sets
the endpoint to the host normalized to end in `/` (appended only when
absent) followed by the trimmed database path, and stores the function host
and an empty auth token; construction with an empty host produces no state
(it performs the out-of-bounds access of `forceEndChar`); the concrete host
`https://x.firebaseio.com` with path `users` yields
`https://x.firebaseio.com/users`. -/
theorem firebaseConstruct_normalizes :
    (∀ hostName functionHost dbPath : List Char, qtrimmed hostName ≠ [] →
        firebaseConstruct hostName functionHost dbPath =
          some ⟨functionHost, [],
            (if (qtrimmed hostName).getLast? = some '/' then qtrimmed hostName
             else qtrimmed hostName ++ ['/']) ++ qtrimmed dbPath⟩) ∧
      (∀ functionHost dbPath : List Char,
          firebaseConstruct ([]) functionHost dbPath = none) ∧
      firebaseConstruct (("https://x.firebaseio.com").toList) ([]) (("users").toList) =
        some ⟨([]), ([]), (("https://x.firebaseio.com/users").toList)⟩ := by
  refine ⟨?_, fun functionHost dbPath => rfl, rfl⟩
  intro hostName functionHost dbPath h
  unfold firebaseConstruct
  rw [forceEndChar_getLast _ _ h]

/-- Witness for C6 at a concrete host without a trailing slash. -/
theorem firebaseConstruct_normalizes_witness :
    firebaseConstruct (("https://y.firebaseio.com").toList) (("fns").toList)
        (("users").toList) =
      some ⟨(("fns").toList), ([]),
        (if (qtrimmed (("https://y.firebaseio.com").toList)).getLast? = some '/'
         then qtrimmed (("https://y.firebaseio.com").toList)
         else qtrimmed (("https://y.firebaseio.com").toList) ++ ['/']) ++
          qtrimmed (("users").toList)⟩ :=
  firebaseConstruct_normalizes.1 _ _ _ (by decide)

/-- C7: the host-normalization step is not total — on the empty string
`forceEndChar` evaluates `string[string.length()-1] = string[-1]`, an
out-of-bounds access (modelled as `none`), so construction with an empty
(or whitespace-only) host produces no state, contradicting the documented
support for an empty host. -/
theorem forceEndChar_empty_oob :
    (∀ endCh : Char, forceEndChar ([]) endCh = none) ∧
      (∀ functionHost dbPath : List Char,
          firebaseConstruct ([]) functionHost dbPath = none) :=
  ⟨fun _ => rfl, fun _ _ => rfl⟩

/-- C8: `setValue` sends exactly the compact textual serialization of the
JSON body as the request body, with the given verb (default `PATCH`)
against `buildPath(query)`, and content type
`application/x-www-form-urlencoded`; the serialization of
`{"a":[1,true]}` is its compact text. -/
theorem setValue_request :
    (∀ mHost : List Char, ∀ jsonDoc : Json, ∀ verb queryString : List Char,
        setValue mHost jsonDoc verb queryString =
          CustomRequest.mk (buildPath mHost queryString)
            (("application/x-www-form-urlencoded").toList) verb (toJsonCompact jsonDoc)) ∧
      setValueDefaultVerb = ("PATCH").toList ∧
      toJsonCompact (Json.jobj (JsonFields.cons (("a").toList)
          (Json.jarr (JsonList.cons (Json.jnum (("1").toList))
            (JsonList.cons (Json.jbool true) JsonList.nil))) JsonFields.nil)) =
        (("\x7b\"a\":[1,true]\x7d").toList) :=
  ⟨fun _ _ _ _ => rfl, rfl, rfl⟩

/-- C9: for every `put` data payload whose first `:` is absent or at index
`0`, the extracted payload is the empty byte string, which does not parse
as a JSON object, so no Put notification is emitted. -/
theorem trimValue_colon_guard :
    ∀ data : List Char, ¬(0 < qIndexOf data ':') →
      trimValue data = [] ∧
        isObjOption (jsonParse (trimValue data)) = false ∧
        eventReadyRead (putHeader ++ data) = ([], []) := by
  intro data h
  have ht : trimValue data = [] := by
    unfold trimValue
    rw [if_neg h]
    rfl
  refine ⟨ht, ?_, ?_⟩
  · rw [ht]
    rfl
  · have h1 : eventReadyRead (putHeader ++ data) = (parsePut data, []) := rfl
    rw [h1]
    unfold parsePut
    rw [ht]
    rfl

/-- Witness for C9 at a payload with no colon. -/
theorem trimValue_colon_guard_witness :
    trimValue (("no colon here").toList) = [] ∧
      isObjOption (jsonParse (trimValue (("no colon here").toList))) = false ∧
      eventReadyRead (putHeader ++ (("no colon here").toList)) = ([], []) :=
  trimValue_colon_guard (("no colon here").toList) (by decide)

/-- C10: when the first available line read from the stream is empty, the
event handler returns immediately: it emits nothing and consumes no further
bytes from the reply buffer. -/
theorem emptyLine_no_consume :
    ∀ buffer : List Char, (readLineSplit buffer).1 = [] →
      eventReadyRead buffer = ([], buffer) := by
  intro buffer h
  cases buffer with
  | nil => rfl
  | cons c cs =>
    exfalso
    unfold readLineSplit at h
    by_cases hc : c = '\n'
    · rw [if_pos hc] at h
      simp at h
    · rw [if_neg hc] at h
      simp at h

/-- Witness for C10 on the empty reply buffer. -/
theorem emptyLine_no_consume_witness :
    eventReadyRead ([]) = ([], ([] : List Char)) :=
  emptyLine_no_consume ([]) rfl

/-- C2: for every endpoint stored by construction and every query string,
`buildPath` appends `.json` exactly when the endpoint does not already end
in `.json`; for an endpoint already ending in `.json` the result is the
endpoint followed only by the normalized query (no second `.json`), and
re-applying `buildPath` to such an endpoint is idempotent. -/
theorem buildPath_json_suffix :
    ∀ hostName functionHost dbPath queryString : List Char, ∀ st : FirebaseState,
      firebaseConstruct hostName functionHost dbPath = some st →
      ((qRight st.mHost dotJsonLength = dotJson →
          buildPath st.mHost queryString = st.mHost ++ normalizedQuery queryString) ∧
        (qRight st.mHost dotJsonLength ≠ dotJson →
          buildPath st.mHost queryString = (st.mHost ++ dotJson) ++ normalizedQuery queryString) ∧
        (qRight st.mHost dotJsonLength = dotJson →
          buildPath (buildPath st.mHost ([])) queryString = buildPath st.mHost queryString)) := by
  intro hostName functionHost dbPath queryString st hcon
  have hmem : '/' ∈ st.mHost := by
    unfold firebaseConstruct at hcon
    rcases hfe : forceEndChar (qtrimmed hostName) '/' with _ | fh
    · rw [hfe] at hcon
      simp at hcon
    · rw [hfe] at hcon
      injection hcon with hcon
      subst hcon
      exact List.mem_append_left _ (forceEndChar_mem _ _ _ hfe)
  have hkey : qRight st.mHost dotJsonLength = dotJson → ¬((st.mHost.length : Int) ≤ dotJsonLength) := by
    intro hr hle
    have hm : st.mHost = dotJson := by
      unfold qRight at hr
      rw [if_pos hle] at hr
      exact hr
    rw [hm] at hmem
    exact absurd hmem (by decide)
  refine ⟨?_, ?_, ?_⟩
  · intro hr
    rw [buildPath_eq, if_neg (fun hor => hor.elim (hkey hr) (fun hne => hne hr))]
  · intro hne
    rw [buildPath_eq, if_pos (Or.inr hne)]
  · intro hr
    have h0 : buildPath st.mHost ([]) = st.mHost := by
      rw [buildPath_eq, if_neg (fun hor => hor.elim (hkey hr) (fun hne => hne hr))]
      simp [normalizedQuery]
    rw [h0]

/-- Witness for C2 at an endpoint already ending in `.json`. -/
theorem buildPath_json_suffix_witness :
    buildPath (("x.com/a.json").toList) (("orderBy=1").toList) =
      (("x.com/a.json").toList) ++ normalizedQuery (("orderBy=1").toList) :=
  ((buildPath_json_suffix (("x.com/").toList) ([]) (("a.json").toList)
      (("orderBy=1").toList) ⟨([]), ([]), (("x.com/a.json").toList)⟩ rfl).1) (by decide)
